import Mathlib

/-!
# A shallow embedding of the `my_text_editor` core

This file models the pure core of the terminal text editor found in
`src/editor.rs`, `src/coords.rs` and `src/screen.rs`: the editor state
(line buffer, viewport-relative cursor, scroll offsets, dirty flag), the
navigation engine (`move_cursor`), the edit engine (`insert_char`,
`insert_enter`, `process_backspace`, `process_delete`), the search match
construction (`find`'s match list and its index cycling), and the pure
content halves of `open` (splitting file contents into lines, Rust
`str::lines`) and `save_file` (joining lines with newlines).

Modelling conventions:
* Rust `String` rows hold ASCII content (the editor only ever inserts
  ASCII characters); a row is a `List Char`, one column per character.
* `u16` values are modelled as `Nat`.  Saturating operations saturate at
  `U16M = 65535`; checked additions/subtractions and `try_into().unwrap()`
  conversions that can fail are modelled explicitly.  Plain `u16`/`usize`
  sums such as `cursor.y + row_offset` are modelled as exact `Nat`
  addition (they stay far below the overflow bound in every state the
  theorems below talk about).
* A Rust panic (`unwrap` of `None`, out-of-bounds `Vec::remove`,
  `String::insert`/`remove`/slicing beyond the length, `u16` subtraction
  underflow) is modelled by returning `none`; `some s` is a normal,
  panic-free completion with final state `s`.
-/

/-- One document row (a Rust `String` of ASCII characters). -/
abbrev Row := List Char

/-- `u16::MAX`: bound at which the editor's machine integers saturate. -/
def U16M : Nat := 65535

/-- `usize -> u16` conversion `..try_into().unwrap()`; `none` is the panic. -/
def toU16 (n : Nat) : Option Nat := if n ≤ U16M then some n else none

/-- The editor state (`Editor` plus the scroll state of its `Screen`).

`rows` is `Editor::rows`; `cursor_x`/`cursor_y` are the viewport-relative
`Editor::cursor` coordinates; `width`, `height`, `row_offset`,
`col_offset` are the `Screen` fields, and `has_changed` is the dirty
flag.  The absolute document position of the cursor is
`(cursor_x + col_offset, cursor_y + row_offset)`. -/
structure Editor where
  rows : List Row
  cursor_x : Nat
  cursor_y : Nat
  width : Nat
  height : Nat
  row_offset : Nat
  col_offset : Nat
  has_changed : Bool
deriving Repr, DecidableEq

/-- The four navigation key codes handled by `Editor::move_cursor`. -/
inductive Key where
  | up
  | down
  | left
  | right
deriving Repr, DecidableEq

/-- `Editor::get_row`: `self.rows.iter().nth(y as usize).unwrap()`.
`none` models the `unwrap` panic on an out-of-range index. -/
def get_row (s : Editor) (y : Nat) : Option Row := s.rows.get? y

/-- `Editor::cursor_end_of_line`: clamps `y` to the last row index and
returns `(line length, clamped row)`.  `none` models the panic of
`get_row` on an empty row list and of the `usize -> u16` conversion of
the line length. -/
def cursor_end_of_line (s : Editor) (y : Nat) : Option (Nat × Nat) :=
  match get_row s (min (s.rows.length - 1) y) with
  | none => none
  | some row =>
    match toU16 row.length with
    | none => none
    | some true_x => some (true_x, min (s.rows.length - 1) y)

/-- `Editor::move_cursor`.  Each `Key` arm mirrors the corresponding
`KeyCode` arm of the source, including the `Coordinates` bounds checks
(`try_bounded_up_by(1, ..height)` is `y.checked_add(1)` filtered by
`y + 1 < height`; `try_bounded_down_by` is `y.checked_sub(1)`, and
similarly for left/right on `x` against `width`), the saturating scroll
mutators of `Screen`, and the column-offset resets. -/
def move_cursor (k : Key) (s : Editor) : Option Editor :=
  match k with
  | .up =>
    -- try_bounded_up_by(1, ..height): checked_add(1), filtered by < height
    if s.cursor_y + 1 ≤ U16M ∧ s.cursor_y + 1 < s.height then
      match cursor_end_of_line s (s.cursor_y + 1 + s.row_offset) with
      | none => none
      | some eol =>
        let s' := { s with cursor_x := min eol.1 s.cursor_x, cursor_y := s.cursor_y + 1 }
        match get_row s' s'.cursor_y with
        | none => none
        | some row =>
          some (if row.length ≤ s'.cursor_x then { s' with col_offset := 0 } else s')
    else
      some { s with row_offset := s.row_offset - 1 }   -- scroll_up(1), saturating
  | .down =>
    -- try_bounded_down_by(1, ..height): checked_sub(1), filtered by < height
    if 1 ≤ s.cursor_y ∧ s.cursor_y - 1 < s.height then
      if s.rows.length = 0 ∨ s.cursor_y + s.row_offset + 1 = s.rows.length then
        some s
      else
        match cursor_end_of_line s (s.cursor_y - 1 + s.row_offset) with
        | none => none
        | some eol =>
          let s' := { s with
            cursor_x := min eol.1 s.cursor_x,
            cursor_y := min (s.rows.length - 1) (s.cursor_y - 1) }
          match get_row s' s'.cursor_y with
          | none => none
          | some row =>
            some (if row.length ≤ s'.cursor_x then { s' with col_offset := 0 } else s')
    else
      if s.cursor_y + s.row_offset + 1 < s.rows.length then
        some { s with row_offset := min (s.row_offset + 1) U16M }   -- scroll_down(1)
      else
        some s
  | .left =>
    -- try_bounded_left_by(1, ..width): checked_sub(1), filtered by < width
    if 1 ≤ s.cursor_x ∧ s.cursor_x - 1 < s.width then
      match cursor_end_of_line s (s.cursor_y + s.row_offset) with
      | none => none
      | some eol =>
        some { s with cursor_x := min eol.1 (s.cursor_x - 1) }
    else
      if s.cursor_x = 0 ∧ s.cursor_y = 0 then
        if s.row_offset = 0 ∧ s.col_offset = 0 then
          some s                                             -- beginning of file
        else if s.col_offset ≠ 0 then
          some { s with col_offset := s.col_offset - 1 }     -- scroll_left(1)
        else
          match cursor_end_of_line s (s.cursor_y + (s.row_offset - 1)) with
          | none => none
          | some prev_eol =>
            some { s with
              cursor_x := prev_eol.1, cursor_y := 0,
              row_offset := s.row_offset - 1 }               -- scroll_up(1)
      else if s.cursor_x = 0 ∧ s.col_offset ≠ 0 then
        some { s with col_offset := s.col_offset - 1 }       -- scroll_left(1)
      else if s.cursor_x = 0 ∧ s.col_offset = 0 then
        match cursor_end_of_line s ((s.cursor_y - 1) + s.row_offset) with
        | none => none
        | some prev_eol =>
          if prev_eol.2 < s.row_offset then
            none                       -- u16 underflow in prev_eol.y - row_offset
          else if s.width < prev_eol.1 then
            if s.width = 0 then
              none                     -- u16 underflow in width - 1
            else
              some { s with
                cursor_x := s.width - 1,
                cursor_y := prev_eol.2 - s.row_offset,
                col_offset := min (s.col_offset + (prev_eol.1 - s.width + 1)) U16M }
          else
            some { s with cursor_x := prev_eol.1, cursor_y := prev_eol.2 - s.row_offset }
      else
        some s
  | .right =>
    -- try_bounded_right_by(1, ..width): checked_add(1), filtered by < width
    if s.cursor_x + 1 ≤ U16M ∧ s.cursor_x + 1 < s.width then
      if s.rows.length = 0 then
        some s
      else
        match cursor_end_of_line s (s.cursor_y + s.row_offset) with
        | none => none
        | some eol =>
          if eol.1 < s.cursor_x + 1 then                      -- end of the line
            if s.rows.length - 1 ≤ s.cursor_y + s.row_offset then
              some s                                          -- end of file
            else if s.cursor_y = s.height - 1 then            -- end of screen
              some { s with cursor_x := 0, row_offset := min (s.row_offset + 1) U16M }
            else
              some { s with cursor_x := 0, cursor_y := min (s.cursor_y + 1) U16M }
          else
            some { s with cursor_x := min eol.1 (s.cursor_x + 1) }
    else
      match get_row s s.cursor_y with
      | none => none
      | some row =>
        if s.cursor_x + s.col_offset < row.length then
          some { s with col_offset := min (s.col_offset + 1) U16M }  -- scroll_right(1)
        else
          some { s with
            cursor_x := 0, cursor_y := min (s.cursor_y + 1) U16M, col_offset := 0 }

/-- Run a finite sequence of navigation keys; `none` as soon as one
`move_cursor` call panics. -/
def navigate : List Key → Editor → Option Editor
  | [], s => some s
  | k :: ks, s =>
    match move_cursor k s with
    | none => none
    | some s' => navigate ks s'

/-- A handy initial state: whole document loaded, cursor at the origin,
zero offsets, clean buffer, on a `width × height` screen. -/
def init_editor (rows : List Row) (width height : Nat) : Editor :=
  { rows := rows, cursor_x := 0, cursor_y := 0, width := width, height := height,
    row_offset := 0, col_offset := 0, has_changed := false }

/-- `Editor::insert_char`: sets the dirty flag, splices `ch` into the
current line at the absolute column (Rust `String::insert`; `none` models
its panic past the end of the line, and the panic of the row lookup),
re-inserts the row, then moves the cursor Right.

The source sets `has_changed` before the reads; since the reads only
touch `rows` and the cursor, the update is applied on the returned
states. -/
def insert_char (ch : Char) (s : Editor) : Option Editor :=
  match s.rows.get? (s.cursor_y + s.row_offset) with
  | none => none
  | some row =>
    if s.cursor_x + s.col_offset ≤ row.length then
      move_cursor .right { s with
        has_changed := true,
        rows := (s.rows.eraseIdx (s.cursor_y + s.row_offset)).insertIdx
          (s.cursor_y + s.row_offset)
          (row.take (s.cursor_x + s.col_offset) ++ ch ::
            row.drop (s.cursor_x + s.col_offset)) }
    else none

/-- `Editor::insert_enter`: sets the dirty flag, splits the current line
at the absolute column into a prefix (kept at the same index, via
`String::truncate`) and a suffix (`&row[col..]`, inserted right after,
the index saturating in `u16`), moves the cursor Down, then forces
column 0 and a zero column offset. -/
def insert_enter (s : Editor) : Option Editor :=
  match s.rows.get? (s.cursor_y + s.row_offset) with
  | none => none
  | some row =>
    if s.cursor_x + s.col_offset ≤ row.length then
      match move_cursor .down { s with
        has_changed := true,
        rows := (((s.rows.eraseIdx (s.cursor_y + s.row_offset)).insertIdx
            (s.cursor_y + s.row_offset) (row.take (s.cursor_x + s.col_offset))).insertIdx
          (min (s.cursor_y + s.row_offset + 1) U16M)
          (row.drop (s.cursor_x + s.col_offset))) } with
      | none => none
      | some s' => some { s' with cursor_x := 0, col_offset := 0 }
    else none

/-- `Editor::process_backspace`: sets the dirty flag, reads the current
row, moves the cursor Left, then: at absolute (0,0) returns; at column 0
of a later row merges the current row onto the previous one (two
`Vec::remove`s and a `Vec::insert`); otherwise removes the character
left of the absolute column (`String::remove`; `none` models its panic
past the end of the line). -/
def process_backspace (s : Editor) : Option Editor :=
  match get_row s (s.cursor_y + s.row_offset) with
  | none => none
  | some row =>
    match move_cursor .left { s with has_changed := true } with
    | none => none
    | some s' =>
      if s.cursor_x + s.col_offset = 0 ∧ s.cursor_y + s.row_offset = 0 then
        some s'
      else if s.cursor_x + s.col_offset = 0 then
        match get_row s' (s.cursor_y + s.row_offset - 1) with
        | none => none
        | some prev_row =>
          some { s' with rows :=
            (((s'.rows.eraseIdx (s.cursor_y + s.row_offset)).eraseIdx
                (s.cursor_y + s.row_offset - 1)).insertIdx
              (s.cursor_y + s.row_offset - 1) (prev_row ++ row)) }
      else
        if s.cursor_x + s.col_offset - 1 < row.length then
          some { s' with rows :=
            ((s'.rows.eraseIdx (s.cursor_y + s.row_offset)).insertIdx
              (s.cursor_y + s.row_offset)
              (row.take (s.cursor_x + s.col_offset - 1) ++
                row.drop (s.cursor_x + s.col_offset))) }
        else none

/-- `Editor::process_delete`: sets the dirty flag, reads the current row
and its end-of-line column, then: at the end of the last row returns; at
the end of a non-last row appends the next row onto the current one and
removes it; otherwise removes the character at the absolute column
(`String::remove`; `none` models its panic at or past the end of the
line).  The cursor is never moved. -/
def process_delete (s : Editor) : Option Editor :=
  match get_row s (s.cursor_y + s.row_offset) with
  | none => none
  | some row =>
    match cursor_end_of_line s (s.cursor_y + s.row_offset) with
    | none => none
    | some eol =>
      if s.cursor_y + s.row_offset = s.rows.length - 1 ∧
          s.cursor_x + s.col_offset = eol.1 then
        some { s with has_changed := true }
      else if s.cursor_x + s.col_offset = eol.1 then
        match get_row s (min (s.cursor_y + s.row_offset + 1) U16M) with
        | none => none
        | some next_row =>
          some { s with
            has_changed := true,
            rows := ((s.rows.eraseIdx (s.cursor_y + s.row_offset)).eraseIdx
                (s.cursor_y + s.row_offset)).insertIdx
              (s.cursor_y + s.row_offset) (row ++ next_row) }
      else
        if s.cursor_x + s.col_offset < row.length then
          some { s with
            has_changed := true,
            rows := (s.rows.eraseIdx (s.cursor_y + s.row_offset)).insertIdx
              (s.cursor_y + s.row_offset)
              (row.take (s.cursor_x + s.col_offset) ++
                row.drop (s.cursor_x + s.col_offset + 1)) }
        else none

/-- Rust `char::is_ascii`: the code point is at most `0x7F`. -/
def is_ascii (ch : Char) : Bool := ch.toNat ≤ 127

/-- The `KeyCode::Char(ch)` arm of `Editor::process_key_press`.  `ctrl`
says whether the event carries the CONTROL modifier.  The Ctrl-q /
Ctrl-s / Ctrl-f combinations dispatch to quit/save/search, which perform
terminal and file I/O and are outside this pure model (`none` here);
otherwise the character is inserted exactly when it is ASCII. -/
def process_key_char (ch : Char) (ctrl : Bool) (s : Editor) : Option Editor :=
  if ctrl = true ∧ (ch = 'q' ∨ ch = 's' ∨ ch = 'f') then none
  else if is_ascii ch then insert_char ch s
  else some s

/-- Rust `str::find(term)` on an ASCII row: the least index at which
`term` occurs as a contiguous substring. -/
def str_find (term : Row) : Row → Option Nat
  | [] => if term.isPrefixOf ([] : Row) then some 0 else none
  | c :: rest =>
    if term.isPrefixOf (c :: rest) then some 0
    else (str_find term rest).map (· + 1)

/-- The match list built at the top of `Editor::find`: scanning the rows
in document order, the leftmost occurrence of `term` in each row that
has one, as absolute `(x, y)` coordinates. -/
def find_matches (term : Row) (rows : List Row) : List (Nat × Nat) :=
  rows.enum.foldl
    (fun acc p =>
      match str_find term p.2 with
      | some x => acc ++ [(x, p.1)]
      | none => acc)
    []

/-- The first evaluation of `findings[finding]` (with `finding = 0`) at
the top of the match cycle in `Editor::find`; `none` models the
index-out-of-bounds panic on an empty match list. -/
def find_entry (findings : List (Nat × Nat)) : Option (Nat × Nat) :=
  findings.get? 0

/-- The `KeyCode::Up` arm of the match cycle in `Editor::find`:
decrement the index, wrapping `0` to `len - 1` (saturating). -/
def find_cycle_up (finding len : Nat) : Nat :=
  if finding = 0 then len - 1 else finding - 1

/-- The `KeyCode::Down` arm of the match cycle in `Editor::find`:
increment the index, wrapping `len - 1` (saturating) to `0`. -/
def find_cycle_down (finding len : Nat) : Nat :=
  if finding = len - 1 then 0 else finding + 1

/-- Strip one trailing carriage return (the `\r` of a `\r\n` line
terminator) from a completed line, as Rust `str::lines` does. -/
def strip_cr (l : Row) : Row :=
  if l.getLast? = some '\r' then l.dropLast else l

/-- Worker for `file_lines`: `acc` is the current line, reversed. -/
def file_lines_aux : List Char → List Char → List Row
  | [], acc => if acc.isEmpty then [] else [acc.reverse]
  | c :: rest, acc =>
    if c = '\n' then strip_cr acc.reverse :: file_lines_aux rest []
    else file_lines_aux rest (c :: acc)

/-- Rust `str::lines`, as used by `Editor::open` to seed `rows`: split
at `\n` or `\r\n`, the final line ending optional (a trailing terminator
produces no extra empty line; a lone trailing `\r` is kept). -/
def file_lines (contents : List Char) : List Row :=
  file_lines_aux contents []

/-- The content written by `Editor::save_file`: `rows.join("\n")` — the
lines joined by single newlines, with no trailing newline. -/
def save_content : List Row → List Char
  | [] => []
  | [l] => l
  | l :: l' :: ls => l ++ '\n' :: save_content (l' :: ls)

/-- `true` iff the contents contain a carriage return immediately
followed by a line feed. -/
def has_crlf : List Char → Bool
  | [] => false
  | [_] => false
  | a :: b :: rest => (a == '\r' && b == '\n') || has_crlf (b :: rest)

/-- `true` iff the contents end in a line feed. -/
def ends_nl (contents : List Char) : Bool :=
  contents.getLast? = some '\n'

/-! ## General lemmas about the embedding -/

/-- A successful `move_cursor` never changes the line buffer or the
dirty flag: navigation only touches the cursor and the scroll offsets. -/
theorem move_cursor_some {k : Key} {s s' : Editor} (h : move_cursor k s = some s') :
    s'.rows = s.rows ∧ s'.has_changed = s.has_changed := by
  cases k <;> simp only [move_cursor] at h <;>
    (repeat' split at h) <;>
    first
      | exact Option.noConfusion h
      | (injection h with h; subst h; exact ⟨rfl, rfl⟩)

/-- Evaluating `cursor_end_of_line` at a valid row index whose row fits
in `u16` yields that row's length together with the index itself. -/
theorem cursor_end_of_line_eq {s : Editor} {i : Nat} {row : Row}
    (h : s.rows.get? i = some row) (hlen : row.length ≤ U16M) :
    cursor_end_of_line s i = some (row.length, i) := by
  have hi : i < s.rows.length := (List.get?_eq_some.mp h).1
  have hmin : min (s.rows.length - 1) i = i := by omega
  simp only [cursor_end_of_line, get_row, hmin, h, toU16, if_pos hlen]

/-- Removing the element at a valid index and re-inserting a value there
is exactly `List.set`. -/
theorem eraseIdx_insertIdx_eq_set {α : Type} (l : List α) (i : Nat) (v : α)
    (h : i < l.length) : (l.eraseIdx i).insertIdx i v = l.set i v := by
  induction l generalizing i with
  | nil => simp at h
  | cons a t ih =>
    cases i with
    | zero => simp [List.eraseIdx, List.insertIdx]
    | succ n =>
      simp only [List.eraseIdx_cons_succ, List.insertIdx_succ_cons, List.set]
      exact congrArg (a :: ·) (ih n (by simpa using h))

/-- Removing the elements at indices `i` and `i + 1` and inserting a
single value at `i` (the line-merge pattern of `process_delete`) splices
`v` over both of them. -/
theorem double_eraseIdx_insertIdx {α : Type} (l : List α) (i : Nat) (v : α)
    (h : i + 1 < l.length) :
    ((l.eraseIdx i).eraseIdx i).insertIdx i v = l.take i ++ v :: l.drop (i + 2) := by
  induction l generalizing i with
  | nil => simp at h
  | cons a t ih =>
    cases i with
    | zero =>
      cases t with
      | nil => simp at h
      | cons b t' => simp [List.eraseIdx, List.insertIdx]
    | succ n =>
      simp only [List.eraseIdx_cons_succ, List.insertIdx_succ_cons,
        List.take_succ_cons, List.drop_succ_cons, List.cons_append]
      exact congrArg (a :: ·) (ih n (by simpa using h))

/-- The merged-row splice of `double_eraseIdx_insertIdx` shortens the
list by exactly one element. -/
theorem length_merge_splice {α : Type} (l : List α) (i : Nat) (v : α)
    (h : i + 1 < l.length) :
    (l.take i ++ v :: l.drop (i + 2)).length = l.length - 1 := by
  simp only [List.length_append, List.length_cons, List.length_take, List.length_drop]
  omega

/-! ## The claims -/

/-- C1 (refuted on the code — code bug).  From the initial state
(cursor at the origin, zero offsets) on the three-line document
`["a", "b", "c"]` with a 4×4 screen, the navigation sequence Down, Down,
Up completes without a panic yet leaves the absolute cursor row at `3`,
outside `[0, line_count - 1] = [0, 2]`: the two Down presses scroll the
viewport (`row_offset` becomes 2) and the Up press then increments the
screen row to 1 without any clamp against the document, because
`Coordinates::try_bounded_up_by` adds to `y`. -/
theorem c1_abs_row_escapes_document :
    (navigate [Key.down, Key.down, Key.up] (init_editor [['a'], ['b'], ['c']] 4 4)).map
        (fun t => (t.cursor_y + t.row_offset, t.rows.length)) = some (3, 3) := by
  decide

/-- C2 (refuted on the code — code bug).  From the initial state on the
one-line document `["a"]` with a 10×10 screen, a single Up keypress
panics: the Up arm sets the screen cursor row to 1 and then evaluates
`self.get_row(self.cursor.y())`, i.e. `rows.iter().nth(1).unwrap()`, on
a one-row buffer. -/
theorem c2_up_navigation_panics :
    move_cursor Key.up (init_editor [['a']] 10 10) = none := by decide

/-- C3 (refuted on the code — code bug).  For the query `"z"`, which
occurs in no line of the document `["abc"]`, the match list is empty and
yet the cycling loop in `Editor::find` is entered unconditionally: its
first action evaluates `findings[0]`, which on the empty list is an
index-out-of-bounds panic (`find_entry _ = none`).  Neither `find` nor
its caller `prompt_search` checks for an empty match list. -/
theorem c3_empty_match_list_indexed :
    find_matches ['z'] [['a', 'b', 'c']] = [] ∧
      find_entry (find_matches ['z'] [['a', 'b', 'c']]) = none := by decide

/-- The concrete state refuting C5: document `["ab", "abcd"]` on a 4×4
screen, viewport scrolled down one row (`row_offset = 1`), cursor at
screen position `(3, 0)`, i.e. at the valid absolute position `(3, 1)`
on the four-character line `"abcd"`. -/
def c5_state : Editor :=
  { init_editor [['a', 'b'], ['a', 'b', 'c', 'd']] 4 4 with cursor_x := 3, row_offset := 1 }

/-- C5 (refuted on the code — code bug).  In `c5_state` the cursor sits
at a valid absolute position (column 3 ≤ length 4 of the line at
absolute row 1).  Inserting `'x'` succeeds, but the Right move that ends
`insert_char` hits the `try_bounded_right_by` `None` branch and there
consults `get_row(self.cursor.y())` — the *screen* row 0, whose line
`"ab"` is short — so it wrongly wraps the cursor to the start of screen
row 1 (absolute row 2, past the document).  The immediately following
Backspace then panics in `get_row`: the insert/backspace round trip
neither restores the document nor the cursor. -/
theorem c5_insert_backspace_round_trip_fails :
    c5_state.rows.get? (c5_state.cursor_y + c5_state.row_offset) =
        some ['a', 'b', 'c', 'd'] ∧
      c5_state.cursor_x + c5_state.col_offset ≤ 4 ∧
      (insert_char 'x' c5_state).isSome = true ∧
      (insert_char 'x' c5_state).bind process_backspace = none := by decide

/-- The concrete state refuting C7: document `["a", "bc"]` on an 8×8
screen, zero offsets, cursor at the valid absolute position `(1, 1)`. -/
def c7_state : Editor :=
  { init_editor [['a'], ['b', 'c']] 8 8 with cursor_x := 1, cursor_y := 1 }

/-- C7 (refuted on the code — code bug).  In `c7_state`, inserting a
line break splits `"bc"` into `"b"` and `"c"`, but the Down move that
ends `insert_enter` *decrements* the screen row
(`Coordinates::try_bounded_down_by` subtracts), so the cursor lands at
absolute `(0, 0)` instead of column 0 of the new line.  The following
Backspace is then the beginning-of-file no-op, and the document stays
split as `["a", "b", "c"]` instead of being restored to `["a", "bc"]`. -/
theorem c7_enter_backspace_not_restored :
    ((insert_enter c7_state).bind process_backspace).map Editor.rows =
        some [['a'], ['b'], ['c']] ∧
      c7_state.rows = [['a'], ['b', 'c']] ∧
      [['a'], ['b'], ['c']] ≠ [['a'], ['b', 'c']] := by decide

/-- The concrete state for the C4 counterexample and witness: one-line
clean document `["a"]`, cursor at the absolute beginning of the file. -/
def c4_state : Editor := init_editor [['a']] 10 10

/-- C4 counterexample.  Backspace at absolute column 0 of absolute
row 0 — the claim's "true no-op" — leaves the document and the cursor
unchanged but flips the dirty flag from `false` to `true`, because
`process_backspace` executes `self.has_changed = true;` before any of
its case checks.  The claim's "the dirty flag is left unchanged" is
therefore false at this input. -/
theorem c4_noop_backspace_sets_dirty :
    (process_backspace c4_state).map Editor.has_changed = some true ∧
      (process_backspace c4_state).map Editor.rows = some c4_state.rows ∧
      (process_backspace c4_state).map
          (fun t => (t.cursor_x, t.cursor_y, t.row_offset, t.col_offset)) =
        some (0, 0, 0, 0) ∧
      c4_state.has_changed = false := by decide

/-- C4 as amended.  Backspace at absolute (0,0) and Delete-forward at
the end of the last row are no-ops on the document and the cursor, but
*every* completed Backspace and Delete-forward sets the dirty flag,
including those two no-op cases: the flag is assigned unconditionally
before the no-op checks. -/
theorem c4_dirty_flag_always_set (s : Editor) (row : Row)
    (hrow : s.rows.get? (s.cursor_y + s.row_offset) = some row)
    (hlen : row.length ≤ U16M) :
    (∀ s', process_backspace s = some s' → s'.has_changed = true) ∧
      (∀ s', process_delete s = some s' → s'.has_changed = true) ∧
      (s.cursor_x + s.col_offset = 0 → s.cursor_y + s.row_offset = 0 →
        process_backspace s = some { s with has_changed := true }) ∧
      (s.cursor_y + s.row_offset = s.rows.length - 1 →
        s.cursor_x + s.col_offset = row.length →
        process_delete s = some { s with has_changed := true }) := by
  refine ⟨?_, ?_, ?_, ?_⟩
  · intro s' h
    simp only [process_backspace, get_row] at h
    split at h
    · exact Option.noConfusion h
    · rename_i row0 hrow0
      cases hmv : move_cursor .left { s with has_changed := true } with
      | none => rw [hmv] at h; exact Option.noConfusion h
      | some s1 =>
        have hdirty : s1.has_changed = true := (move_cursor_some hmv).2
        simp only [hmv] at h
        (repeat' split at h) <;>
          first
            | exact Option.noConfusion h
            | (injection h with h; cases h; exact hdirty)
  · intro s' h
    simp only [process_delete, get_row] at h
    (repeat' split at h) <;>
      first
        | exact Option.noConfusion h
        | (injection h with h; subst h; rfl)
  · intro h2 h3
    have hcx : s.cursor_x = 0 := by omega
    have hco : s.col_offset = 0 := by omega
    have hcy : s.cursor_y = 0 := by omega
    have hro : s.row_offset = 0 := by omega
    have hmv : move_cursor .left { s with has_changed := true } =
        some { s with has_changed := true } := by
      simp only [move_cursor]
      rw [if_neg (by simp [hcx]), if_pos ⟨hcx, hcy⟩, if_pos ⟨hro, hco⟩]
    simp only [process_backspace, get_row, hrow, hmv]
    rw [if_pos ⟨h2, h3⟩]
  · intro h1 h2
    have heol := cursor_end_of_line_eq hrow hlen
    simp only [process_delete, get_row, hrow, heol]
    rw [if_pos ⟨h1, h2⟩]

/-- C4 witness: in `c4_state` (clean one-line document, cursor at the
absolute origin) Backspace completes as the document/cursor no-op with
the dirty flag set. -/
theorem c4_dirty_flag_witness :
    process_backspace c4_state = some { c4_state with has_changed := true } :=
  (c4_dirty_flag_always_set c4_state ['a'] rfl (by decide)).2.2.1 rfl rfl

/-- C6 (confirmed).  For any state whose cursor is at a valid absolute
position (`row` is the line at the absolute row, and the absolute column
is at most its length; the machine-integer side conditions keep the
`u16` conversions and the saturating `+ 1` exact): Delete-forward at the
end-of-line column of the last row is a document/cursor no-op; at the
end-of-line column of a non-last row it appends the following line onto
the current one, removes it (line count drops by exactly 1) and leaves
the cursor unchanged; otherwise it removes exactly the character at the
absolute column, cursor unchanged.  (The record updates fix every
cursor/offset field, so "cursor unchanged" is part of each equation.) -/
theorem c6_process_delete_trichotomy (s : Editor) (row : Row)
    (hrow : s.rows.get? (s.cursor_y + s.row_offset) = some row)
    (_hcol : s.cursor_x + s.col_offset ≤ row.length)
    (hlen : row.length ≤ U16M)
    (hsat : s.cursor_y + s.row_offset + 1 ≤ U16M) :
    (s.cursor_y + s.row_offset = s.rows.length - 1 →
      s.cursor_x + s.col_offset = row.length →
      process_delete s = some { s with has_changed := true }) ∧
      (s.cursor_y + s.row_offset ≠ s.rows.length - 1 →
        s.cursor_x + s.col_offset = row.length →
        ∃ next_row, s.rows.get? (s.cursor_y + s.row_offset + 1) = some next_row ∧
          process_delete s = some { s with
            has_changed := true,
            rows := s.rows.take (s.cursor_y + s.row_offset) ++
              (row ++ next_row) :: s.rows.drop (s.cursor_y + s.row_offset + 2) } ∧
          (s.rows.take (s.cursor_y + s.row_offset) ++
              (row ++ next_row) :: s.rows.drop (s.cursor_y + s.row_offset + 2)).length =
            s.rows.length - 1) ∧
      (s.cursor_x + s.col_offset < row.length →
        process_delete s = some { s with
          has_changed := true,
          rows := s.rows.set (s.cursor_y + s.row_offset)
            (row.take (s.cursor_x + s.col_offset) ++
              row.drop (s.cursor_x + s.col_offset + 1)) }) := by
  have hi : s.cursor_y + s.row_offset < s.rows.length := (List.get?_eq_some.mp hrow).1
  have heol := cursor_end_of_line_eq hrow hlen
  refine ⟨?_, ?_, ?_⟩
  · intro h1 h2
    simp only [process_delete, get_row, hrow, heol]
    rw [if_pos ⟨h1, h2⟩]
  · intro h1 h2
    have hi2 : s.cursor_y + s.row_offset + 1 < s.rows.length := by omega
    obtain ⟨next_row, hnext⟩ : ∃ v, s.rows.get? (s.cursor_y + s.row_offset + 1) = some v :=
      ⟨_, List.get?_eq_get hi2⟩
    have hmin : min (s.cursor_y + s.row_offset + 1) U16M = s.cursor_y + s.row_offset + 1 := by
      omega
    refine ⟨next_row, hnext, ?_, ?_⟩
    · simp only [process_delete, get_row, hrow, heol, hmin, hnext]
      rw [if_neg (fun hc => h1 hc.1), if_pos h2,
        double_eraseIdx_insertIdx _ _ _ hi2]
    · exact length_merge_splice _ _ _ hi2
  · intro h
    simp only [process_delete, get_row, hrow, heol]
    rw [if_neg (fun hc => absurd hc.2 (by omega)), if_neg (by omega), if_pos h,
      eraseIdx_insertIdx_eq_set _ _ _ hi]

/-- A Right move completes (no panic) whenever the line at the absolute
row exists and fits in `u16` and either the cursor can still step right
inside the viewport or the screen row is a valid index into the row
list (the index the `None` arm of the Right branch looks up). -/
theorem move_right_isSome (t : Editor) (row : Row)
    (hget : t.rows.get? (t.cursor_y + t.row_offset) = some row)
    (hlen : row.length ≤ U16M)
    (hcx : t.cursor_x + 1 ≤ U16M)
    (hor : t.cursor_x + 1 < t.width ∨ t.cursor_y < t.rows.length) :
    (move_cursor .right t).isSome = true := by
  have hi : t.cursor_y + t.row_offset < t.rows.length := (List.get?_eq_some.mp hget).1
  have heol := cursor_end_of_line_eq hget hlen
  simp only [move_cursor]
  by_cases hA : t.cursor_x + 1 < t.width
  · rw [if_pos ⟨hcx, hA⟩, if_neg (by omega)]
    simp only [heol]
    repeat' split
    all_goals rfl
  · rw [if_neg (fun hc => hA hc.2)]
    have hcy : t.cursor_y < t.rows.length := hor.resolve_left hA
    obtain ⟨r0, hr0⟩ : ∃ v, t.rows.get? t.cursor_y = some v := ⟨_, List.get?_eq_get hcy⟩
    simp only [get_row, hr0]
    split <;> rfl

/-- C6 witness: in the two-line document `["ab", "cd"]` with the cursor
at the end-of-line column of the first row, Delete-forward merges the
second line onto the first, leaving the single line `"abcd"` and the
cursor untouched. -/
theorem c6_process_delete_witness :
    process_delete { init_editor [['a', 'b'], ['c', 'd']] 10 10 with cursor_x := 2 } =
      some { init_editor [['a', 'b'], ['c', 'd']] 10 10 with
        cursor_x := 2, has_changed := true, rows := [['a', 'b', 'c', 'd']] } := by
  obtain ⟨-, h2, -⟩ :=
    c6_process_delete_trichotomy
      { init_editor [['a', 'b'], ['c', 'd']] 10 10 with cursor_x := 2 } ['a', 'b']
      rfl (by decide) (by decide) (by decide)
  obtain ⟨next_row, hnext, heq, -⟩ := h2 (by decide) rfl
  injection hnext with hnext
  subst hnext
  exact heq

/-- C9 concrete state for the witness: clean two-character document
`["ab"]`, cursor at the absolute origin, 10×10 screen. -/
def c9_state : Editor := init_editor [['a', 'b']] 10 10

/-- C9 (confirmed).  For a character key event that is not one of the
Ctrl-q / Ctrl-s / Ctrl-f bindings: a non-ASCII character leaves the
editor state — document lines, cursor, viewport offsets and dirty flag —
entirely unchanged, while an ASCII character (printable or not) is
dispatched to `insert_char`, and any completed insertion replaces the
current line by itself with the character spliced in at the absolute
column and sets the dirty flag; under the machine-integer side
conditions, with the cursor either strictly inside the viewport or its
screen row a valid row index, the insertion indeed completes. -/
theorem c9_key_char_dispatch (ch : Char) (ctrl : Bool) (s : Editor) (row : Row)
    (hnb : ¬(ctrl = true ∧ (ch = 'q' ∨ ch = 's' ∨ ch = 'f')))
    (hrow : s.rows.get? (s.cursor_y + s.row_offset) = some row)
    (hcol : s.cursor_x + s.col_offset ≤ row.length) :
    (is_ascii ch = false → process_key_char ch ctrl s = some s) ∧
      (is_ascii ch = true →
        process_key_char ch ctrl s = insert_char ch s ∧
          (∀ s', insert_char ch s = some s' →
            s'.rows = s.rows.set (s.cursor_y + s.row_offset)
              (row.take (s.cursor_x + s.col_offset) ++ ch ::
                row.drop (s.cursor_x + s.col_offset)) ∧
              s'.has_changed = true) ∧
          (row.length + 1 ≤ U16M → s.cursor_x + 1 ≤ U16M →
            (s.cursor_x + 1 < s.width ∨ s.cursor_y < s.rows.length) →
            (insert_char ch s).isSome = true)) := by
  have hi : s.cursor_y + s.row_offset < s.rows.length := (List.get?_eq_some.mp hrow).1
  constructor
  · intro hna
    simp [process_key_char, hnb, hna]
  · intro ha
    refine ⟨by simp [process_key_char, hnb, ha], ?_, ?_⟩
    · intro s' h
      simp only [insert_char, hrow] at h
      rw [if_pos hcol] at h
      have hps := move_cursor_some h
      refine ⟨hps.1.trans ?_, hps.2⟩
      exact eraseIdx_insertIdx_eq_set _ _ _ hi
    · intro hl1 hx1 hor
      have hins : insert_char ch s =
          move_cursor .right { s with
            has_changed := true,
            rows := (s.rows.eraseIdx (s.cursor_y + s.row_offset)).insertIdx
              (s.cursor_y + s.row_offset)
              (row.take (s.cursor_x + s.col_offset) ++ ch ::
                row.drop (s.cursor_x + s.col_offset)) } := by
        simp only [insert_char, hrow]
        rw [if_pos hcol]
      rw [hins]
      apply move_right_isSome _
        (row.take (s.cursor_x + s.col_offset) ++ ch ::
          row.drop (s.cursor_x + s.col_offset))
      · show ((s.rows.eraseIdx (s.cursor_y + s.row_offset)).insertIdx
            (s.cursor_y + s.row_offset) _).get? (s.cursor_y + s.row_offset) = some _
        rw [eraseIdx_insertIdx_eq_set _ _ _ hi, List.get?_set_eq, hrow]
        rfl
      · have : (row.take (s.cursor_x + s.col_offset) ++ ch ::
            row.drop (s.cursor_x + s.col_offset)).length = row.length + 1 := by
          simp only [List.length_append, List.length_cons, List.length_take,
            List.length_drop]
          omega
        rw [this]
        exact hl1
      · exact hx1
      · show s.cursor_x + 1 < s.width ∨ s.cursor_y <
          ((s.rows.eraseIdx (s.cursor_y + s.row_offset)).insertIdx
            (s.cursor_y + s.row_offset) _).length
        rw [eraseIdx_insertIdx_eq_set _ _ _ hi, List.length_set]
        exact hor

/-- C9 witness: in `c9_state` a non-ASCII key (the snowman, code point
9731) leaves the state unchanged, while the ASCII key `'x'` is inserted
at the front of the current line. -/
theorem c9_key_char_witness :
    process_key_char (Char.ofNat 9731) false c9_state = some c9_state ∧
      (process_key_char 'x' false c9_state).map Editor.rows = some [['x', 'a', 'b']] := by
  constructor
  · exact (c9_key_char_dispatch (Char.ofNat 9731) false c9_state ['a', 'b']
      (by simp) rfl (by decide)).1 (by decide)
  · obtain ⟨hdisp, hchar, htot⟩ :=
      (c9_key_char_dispatch 'x' false c9_state ['a', 'b']
        (by simp) rfl (by decide)).2 (by decide)
    obtain ⟨s', hs'⟩ := Option.isSome_iff_exists.mp
      (htot (by decide) (by decide) (Or.inl (by decide)))
    rw [hdisp, hs']
    show some s'.rows = some [['x', 'a', 'b']]
    rw [(hchar s' hs').1]
    decide

/-- The document of the C8 search scenario: `["abc", "dba"]`. -/
def c8_doc : List Row := [['a', 'b', 'c'], ['d', 'b', 'a']]

/-- C8 (confirmed).  Searching `"b"` in `["abc", "dba"]` produces the
match list `[(1,0), (1,1)]` — per document row, the leftmost occurrence
only, in document order; cycling Down from index 0 lands on `(1,1)`,
cycling Down again wraps the index to 0 (landing back on `(1,0)`), and
Up at index 0 wraps to the last index.  In general, `str_find` returns
an index at which the query occurs and before which it does not —
the leftmost occurrence. -/
theorem c8_find_order_and_cycling :
    find_matches ['b'] c8_doc = [(1, 0), (1, 1)] ∧
      (find_matches ['b'] c8_doc).get?
          (find_cycle_down 0 (find_matches ['b'] c8_doc).length) = some (1, 1) ∧
      find_cycle_down (find_cycle_down 0 (find_matches ['b'] c8_doc).length)
          (find_matches ['b'] c8_doc).length = 0 ∧
      (find_matches ['b'] c8_doc).get? 0 = some (1, 0) ∧
      find_cycle_up 0 (find_matches ['b'] c8_doc).length =
        (find_matches ['b'] c8_doc).length - 1 ∧
      (∀ (term line : Row) (x : Nat), str_find term line = some x →
        term.isPrefixOf (line.drop x) = true ∧
          ∀ x', x' < x → term.isPrefixOf (line.drop x') = false) := by
  refine ⟨by decide, by decide, by decide, by decide, by decide, ?_⟩
  intro term line
  induction line with
  | nil =>
    intro x h
    simp only [str_find] at h
    split at h
    · injection h with h
      subst h
      rename_i hp
      exact ⟨hp, fun x' hx' => absurd hx' (Nat.not_lt_zero x')⟩
    · exact Option.noConfusion h
  | cons c rest ih =>
    intro x h
    simp only [str_find] at h
    by_cases hp : term.isPrefixOf (c :: rest) = true
    · rw [if_pos hp] at h
      injection h with h
      subst h
      exact ⟨hp, fun x' hx' => absurd hx' (Nat.not_lt_zero x')⟩
    · rw [if_neg hp] at h
      cases hf : str_find term rest with
      | none => rw [hf] at h; exact Option.noConfusion h
      | some x0 =>
        rw [hf] at h
        simp only [Option.map_some'] at h
        injection h with h
        subst h
        obtain ⟨h1, h2⟩ := ih x0 hf
        refine ⟨by simpa using h1, ?_⟩
        intro x' hx'
        cases x' with
        | zero =>
          show term.isPrefixOf (c :: rest) = false
          cases hb : term.isPrefixOf (c :: rest) with
          | false => rfl
          | true => exact absurd hb hp
        | succ n =>
          have hn : n < x0 := by omega
          simpa using h2 n hn

/-- C8 witness: instantiating the leftmost-occurrence clause at the
query `"b"` and the line `"abc"` (where `str_find` returns 1): the query
occurs at index 1 and does not occur at index 0. -/
theorem c8_find_witness :
    List.isPrefixOf ['b'] (['a', 'b', 'c'].drop 1) = true ∧
      List.isPrefixOf ['b'] (['a', 'b', 'c'].drop 0) = false := by
  obtain ⟨h1, h2⟩ := c8_find_order_and_cycling.2.2.2.2.2 ['b'] ['a', 'b', 'c'] 1 rfl
  exact ⟨h1, h2 0 (by decide)⟩

/-- `has_crlf` on a cons, phrased via the head of the tail. -/
theorem has_crlf_cons (a : Char) (l : List Char) :
    has_crlf (a :: l) = ((a == '\r' && (l.head? == some '\n')) || has_crlf l) := by
  cases l <;> simp [has_crlf]

/-- CRLF-freedom is inherited by suffixes. -/
theorem has_crlf_append {xs ys : List Char} (h : has_crlf (xs ++ ys) = false) :
    has_crlf ys = false := by
  induction xs with
  | nil => exact h
  | cons a xs' ih =>
    rw [List.cons_append, has_crlf_cons] at h
    exact ih (by
      cases hv : has_crlf (xs' ++ ys)
      · rfl
      · rw [hv, Bool.or_true] at h; exact h)

/-- A list that materially contains the two-character sequence
`'\r', '\n'` has a CRLF. -/
theorem has_crlf_of_crlf (xs ys : List Char) :
    has_crlf (xs ++ '\r' :: '\n' :: ys) = true := by
  induction xs with
  | nil => simp [has_crlf]
  | cons a xs' ih => rw [List.cons_append, has_crlf_cons, ih, Bool.or_true]

/-- `file_lines_aux` yields a nonempty line list unless both the input
and the accumulator are empty. -/
theorem file_lines_aux_ne_nil (c : List Char) :
    ∀ acc : List Char, c ≠ [] ∨ acc ≠ [] → file_lines_aux c acc ≠ [] := by
  induction c with
  | nil =>
    intro acc h
    have hacc : acc ≠ [] := h.resolve_left (fun hc => hc rfl)
    simp only [file_lines_aux]
    rw [if_neg (by simpa using hacc)]
    simp
  | cons a rest ih =>
    intro acc h
    simp only [file_lines_aux]
    by_cases ha : a = '\n'
    · rw [if_pos ha]; simp
    · rw [if_neg ha]
      exact ih (a :: acc) (Or.inr (by simp))

/-- `save_content` on a cons with a nonempty tail. -/
theorem save_content_cons (l : Row) (L : List Row) (h : L ≠ []) :
    save_content (l :: L) = l ++ '\n' :: save_content L := by
  cases L with
  | nil => exact absurd rfl h
  | cons l' ls => rfl

/-- The central round-trip computation: joining the lines produced by
the splitting worker reproduces the input (prefixed by the pending
accumulator), minus a final trailing newline, as long as the input holds
no CRLF sequence.  The accumulator holds the current (reversed) partial
line and hence never contains `'\n'`. -/
theorem save_content_file_lines_aux (c : List Char) :
    ∀ acc : List Char, '\n' ∉ acc → has_crlf (acc.reverse ++ c) = false →
      save_content (file_lines_aux c acc) =
        if (acc.reverse ++ c).getLast? = some '\n' then (acc.reverse ++ c).dropLast
        else acc.reverse ++ c := by
  induction c with
  | nil =>
    intro acc hnl _hcr
    simp only [file_lines_aux, List.append_nil]
    cases acc with
    | nil => simp [save_content]
    | cons a t =>
      rw [if_neg (by simp), if_neg ?hlast]
      · rfl
      case hlast =>
        rw [List.getLast?_reverse]
        simp only [List.head?_cons]
        intro hc
        injection hc with hc
        exact hnl (by rw [hc]; exact List.mem_cons_self _ _)
  | cons ch rest ih =>
    intro acc hnl hcr
    by_cases hch : ch = '\n'
    · subst hch
      have hunfold : file_lines_aux ('\n' :: rest) acc =
          strip_cr acc.reverse :: file_lines_aux rest [] := by
        simp [file_lines_aux]
      rw [hunfold]
      have hstrip : strip_cr acc.reverse = acc.reverse := by
        unfold strip_cr
        cases acc with
        | nil => simp
        | cons a t =>
          rw [if_neg ?hr]
          case hr =>
            rw [List.getLast?_reverse]
            simp only [List.head?_cons]
            intro hc
            injection hc with hc
            subst hc
            have hsplit : ('\r' :: t).reverse ++ '\n' :: rest =
                t.reverse ++ '\r' :: '\n' :: rest := by
              simp [List.append_assoc]
            rw [hsplit, has_crlf_of_crlf] at hcr
            exact Bool.noConfusion hcr
      rw [hstrip]
      cases rest with
      | nil =>
        show save_content [acc.reverse] =
          if (acc.reverse ++ ['\n']).getLast? = some '\n' then
            (acc.reverse ++ ['\n']).dropLast
          else acc.reverse ++ ['\n']
        rw [if_pos (List.getLast?_concat _), List.dropLast_concat]
        rfl
      | cons r rs =>
        have hne2 : file_lines_aux (r :: rs) [] ≠ [] :=
          file_lines_aux_ne_nil _ [] (Or.inl (by simp))
        rw [save_content_cons _ _ hne2]
        have hsplit : acc.reverse ++ '\n' :: r :: rs =
            (acc.reverse ++ ['\n']) ++ (r :: rs) := by
          simp [List.append_assoc]
        have hcr' : has_crlf (r :: rs) = false := by
          rw [hsplit] at hcr
          exact has_crlf_append hcr
        have ihr := ih [] (by simp) (by simpa using hcr')
        simp only [List.reverse_nil, List.nil_append] at ihr
        rw [ihr]
        have hLast : (acc.reverse ++ '\n' :: r :: rs).getLast? = (r :: rs).getLast? := by
          rw [hsplit, List.getLast?_append_of_ne_nil _ (by simp)]
        by_cases hE : (r :: rs).getLast? = some '\n'
        · rw [if_pos hE, if_pos (by rw [hLast]; exact hE)]
          rw [hsplit, List.dropLast_append_of_ne_nil _ (by simp)]
          simp [List.append_assoc]
        · rw [if_neg hE, if_neg (by rw [hLast]; exact hE)]
    · simp only [file_lines_aux, if_neg hch]
      have hceq : (ch :: acc).reverse ++ rest = acc.reverse ++ ch :: rest := by
        simp [List.append_assoc]
      have ih' := ih (ch :: acc)
        (by
          intro hmem
          rcases List.mem_cons.mp hmem with hc | hc
          · exact hch hc.symm
          · exact hnl hc)
        (by rw [hceq]; exact hcr)
      rw [ih', hceq]

/-- C10 counterexample.  The file contents `"a\r\nb"` do *not* end in a
newline, yet save-after-load does not reproduce them: loading splits at
the `\r\n` and drops the `\r`, and saving joins with a bare `\n`, so the
written contents are `"a\nb"`.  The claimed equivalence ("reproduces
exactly iff the original does not end in a newline") is false at this
input. -/
theorem c10_crlf_counterexample :
    ends_nl ['a', '\r', '\n', 'b'] = false ∧
      save_content (file_lines ['a', '\r', '\n', 'b']) ≠ ['a', '\r', '\n', 'b'] := by
  decide

/-- C10 as amended.  Loading splits the contents at `\n` or `\r\n`
(discarding a final trailing line ending) and saving joins the lines
with single `\n` characters and no trailing newline; hence, *provided
the contents contain no carriage-return-plus-line-feed sequence*,
save-after-load reproduces the original contents exactly iff they do not
end in a newline, and contents ending in a newline are written back
exactly one character (that newline) shorter. -/
theorem c10_save_after_load (c : List Char) (hcr : has_crlf c = false) :
    (save_content (file_lines c) = c ↔ ends_nl c = false) ∧
      (ends_nl c = true → save_content (file_lines c) = c.dropLast) := by
  have key : save_content (file_lines c) =
      if c.getLast? = some '\n' then c.dropLast else c := by
    have h := save_content_file_lines_aux c [] (by simp) (by simpa using hcr)
    simpa [file_lines] using h
  have hnl_iff : ends_nl c = true ↔ c.getLast? = some '\n' := by
    simp [ends_nl]
  constructor
  · constructor
    · intro h
      cases hE : ends_nl c
      · rfl
      · exfalso
        have hg : c.getLast? = some '\n' := hnl_iff.mp hE
        rw [key, if_pos hg] at h
        have hcne : c ≠ [] := by
          intro hc
          rw [hc] at hg
          exact Option.noConfusion hg
        have hlen := congrArg List.length h
        rw [List.length_dropLast] at hlen
        have hpos : 0 < c.length := List.length_pos.mpr hcne
        omega
    · intro hE
      have hg : ¬ c.getLast? = some '\n' := by
        intro hc
        rw [hnl_iff.mpr hc] at hE
        exact Bool.noConfusion hE
      rw [key, if_neg hg]
  · intro hE
    rw [key, if_pos (hnl_iff.mp hE)]

/-- C10 witness: the CRLF-free contents `"a\nb"` (not newline-final)
round-trip exactly, and the CRLF-free contents `"a\n"` (newline-final)
are written back one character shorter, as `"a"`. -/
theorem c10_save_after_load_witness :
    save_content (file_lines ['a', '\n', 'b']) = ['a', '\n', 'b'] ∧
      save_content (file_lines ['a', '\n']) = ['a'] := by
  refine ⟨(c10_save_after_load ['a', '\n', 'b'] (by decide)).1.mpr (by decide), ?_⟩
  have h := (c10_save_after_load ['a', '\n'] (by decide)).2 (by decide)
  simpa using h
